/-
Verification of the Dynamite dynamic-model composition layer
(dynamite_cpp/Main.cpp): parameter-block bookkeeping, batch map/sum
utilities, the indexed recurrence loop, fold, the unrolled sequence
classifier, the attention model, and minibatch adaptation.

Tensors (`CNTK::Variable`) are opaque values of a type parameter; the
external graph engine's primitive operations (Splice, ReduceSum, Reshape,
Exp, log-sum-exp, Tanh, matrix Times) are modelled either as abstract
operation records or, for the attention arithmetic, over an arbitrary
field with abstract `exp`/`log` functions satisfying the collaborator's
contract.
-/
import Mathlib

set_option maxHeartbeats 1000000

/-- A learnable parameter handle (`CNTK::Parameter`): a name plus an opaque
payload standing for the engine-owned tensor. -/
structure Param (τ : Type) where
  name : String
  value : τ
  deriving DecidableEq

/-- `Dynamite::ParameterBlock` (Main.cpp 28-55): a map from parameter name to
`Parameter` (`m_parameters`) and a map from child name to nested block
(`m_parentParameters`).  `std::map` is modelled as an association list
queried with `List.lookup`. -/
inductive ParameterBlock (τ : Type) where
  | mk (params : List (String × Param τ)) (parents : List (String × ParameterBlock τ))

/-- The `m_parameters` field of a `ParameterBlock`. -/
def ParameterBlock.params {τ : Type} : ParameterBlock τ → List (String × Param τ)
  | .mk p _ => p

/-- The `m_parentParameters` field of a `ParameterBlock`. -/
def ParameterBlock.parents {τ : Type} : ParameterBlock τ → List (String × ParameterBlock τ)
  | .mk _ q => q

/-- `ParameterBlock::operator[]` (Main.cpp 41-47): look the name up in
`m_parameters`; if absent, `LogicError("no such parameter: %ls", name)`,
modelled as an `Except.error` carrying the formatted message. -/
def ParameterBlock.lookup {τ : Type} (pb : ParameterBlock τ) (name : String) :
    Except String (Param τ) :=
  match pb.params.lookup name with
  | some p => .ok p
  | none => .error ("no such parameter: " ++ name)

/-- `ParameterBlock::Nested` (Main.cpp 48-54): look the name up in
`m_parentParameters`; if absent, `LogicError("no such captured model: %ls")`. -/
def ParameterBlock.nestedAt {τ : Type} (pb : ParameterBlock τ) (name : String) :
    Except String (ParameterBlock τ) :=
  match pb.parents.lookup name with
  | some q => .ok q
  | none => .error ("no such captured model: " ++ name)

/-- The `ParameterBlock` constructor body (Main.cpp 32-40): each supplied
parameter must be named (`LogicError("parameters must be named")` otherwise)
and is inserted keyed by its name (`std::map::insert` keeps an existing
entry). -/
def ParameterBlock.make {τ : Type} (parameters : List (Param τ))
    (parents : List (String × ParameterBlock τ)) : Except String (ParameterBlock τ) :=
  match go parameters [] with
  | .ok m => .ok (.mk m parents)
  | .error e => .error e
where
  /-- The constructor's insertion loop over the parameter vector. -/
  go : List (Param τ) → List (String × Param τ) → Except String (List (String × Param τ))
  | [], m => .ok m
  | p :: rest, m =>
    if p.name = "" then .error "parameters must be named"
    else go rest (if (m.lookup p.name).isSome then m else m ++ [(p.name, p)])

/-- `Batch::map` (Main.cpp 85-92): apply a unary model to each item of a
batch in order, pushing results onto an initially empty vector. -/
def Batch.map {τ γ : Type} (f : τ → γ) (batch : List τ) : List γ :=
  batch.foldl (fun res x => res ++ [f x]) []

/-- The binary `Batch::Map` overload (Main.cpp 110-121): the returned closure
asserts `yBatch.size() == xBatch.size()` (modelled as a fatal check giving
`none`) and then emplaces `f(xBatch[i], yBatch[i])` for `i` below
`xBatch.size()`. -/
def Batch.MapBinary {τ : Type} [Inhabited τ] (f : τ → τ → τ)
    (xBatch yBatch : List τ) : Option (List τ) :=
  if yBatch.length = xBatch.length then
    some ((List.range xBatch.length).map fun i =>
      f (xBatch.getD i default) (yBatch.getD i default))
  else none

/-- The binary-sequence `Batch::Map` overload (Main.cpp 122-133): same shape
as the binary overload with sequence-valued items. -/
def Batch.MapBinarySeq {τ : Type} (f : List τ → List τ → List τ)
    (xBatch yBatch : List (List τ)) : Option (List (List τ)) :=
  if yBatch.length = xBatch.length then
    some ((List.range xBatch.length).map fun i =>
      f (xBatch.getD i []) (yBatch.getD i []))
  else none

/-- The external tensor engine's primitives used by `Batch::sum`, kept
abstract: shape introspection, `Splice` along an axis, `ReduceSum` along an
axis, `Reshape` to a shape. -/
structure Engine (τ : Type) where
  shapeOf : τ → List Nat
  splice : List τ → Nat → τ
  reduceSum : τ → Nat → τ
  reshape : τ → List Nat → τ

/-- `Batch::sum` over a flat batch (Main.cpp 135-140): reads
`batch.front().Shape()` (undefined on an empty vector, modelled as `none`),
splices the batch along a new axis, reduce-sums along it and reshapes back. -/
def Batch.sum {τ : Type} (E : Engine τ) (batch : List τ) : Option τ :=
  match batch with
  | [] => none
  | x :: _ =>
    let shape := E.shapeOf x
    let axis := shape.length
    some (E.reshape (E.reduceSum (E.splice batch axis) axis) shape)

/-- `Batch::sum` over a batch of sequences (Main.cpp 142-149): the double
loop pushes every sequence item into `allSummands`, then calls the flat
overload. -/
def Batch.sumNested {τ : Type} (E : Engine τ) (batch : List (List τ)) : Option τ :=
  Batch.sum E (batch.foldl (fun acc batchItem => acc ++ batchItem) [])

/-- One iteration of the loop body of the free function `Recurrence`
(Main.cpp 404-416): at trip count `t` it writes one slot of `res` — slot `t`
forwards, slot `len - 1 - t` backwards — from the previous state (the
initial state at `t = 0`, the previously written slot otherwise) and the
matching input element.  `res` is modelled as the vector's contents as a
function from index to value. -/
def recurrenceBody {α : Type} (step : α → α → α) (initialState : α)
    (goBackwards : Bool) (seqAt : Nat → α) (len t : Nat) (res : Nat → α) : Nat → α :=
  if goBackwards then
    let prev := if t = 0 then initialState else res (len - 1 - (t - 1))
    fun j => if j = len - 1 - t then step prev (seqAt (len - 1 - t)) else res j
  else
    let prev := if t = 0 then initialState else res (t - 1)
    fun j => if j = t then step prev (seqAt t) else res j

/-- The first `n` trips of the `Recurrence` loop, starting from the
default-initialized result vector `res0`. -/
def recurrenceLoop {α : Type} (step : α → α → α) (initialState : α)
    (goBackwards : Bool) (seqAt : Nat → α) (len : Nat) (res0 : Nat → α) :
    Nat → Nat → α
  | 0 => res0
  | n + 1 => recurrenceBody step initialState goBackwards seqAt len n
      (recurrenceLoop step initialState goBackwards seqAt len res0 n)

/-- The free function `Recurrence(step, initialState, goBackwards)`
(Main.cpp 398-419) applied to a sequence: allocate `res` of size
`seq.size()` (default-constructed slots), run the loop for `len` trips, and
return the resulting vector. -/
def Recurrence {α : Type} [Inhabited α] (step : α → α → α) (initialState : α)
    (goBackwards : Bool) (seq : List α) : List α :=
  let len := seq.length
  let res := recurrenceLoop step initialState goBackwards
    (fun i => seq.getD i default) len (fun _ => default) len
  (List.range len).map res

/-- A `Dynamite::BinaryModel`: the wrapped binary tensor function together
with its `ParameterBlock` (`ModelT<function<Variable(Variable,Variable)>>`,
Main.cpp 57-79). -/
structure BinaryModel (τ : Type) where
  pb : ParameterBlock τ
  run : τ → τ → τ

/-- The unary model returned by `Sequence::Fold`: its captured-nested map and
the wrapped function, which here consumes a sequence variable denoted as the
list of its per-step values. -/
structure FoldModel (τ : Type) where
  captured : List (String × ParameterBlock τ)
  run : List τ → Option τ

/-- `CNTK::Sequence::Last` (external collaborator, used at Main.cpp 247):
the last per-step value of a sequence variable, undefined on an empty
sequence. -/
def seqLast {τ : Type} (xs : List τ) : Option τ :=
  xs.getLast?

/-- Modelled from the spec: the denotation of `Sequence::Recurrence`
(Main.cpp 215-224), which builds `rec = step(PastValue(dh), x)` and replaces
the placeholder `dh` by `rec` itself.  Per the spec, the
placeholder-replacement mechanism makes "a step function's output feed back
as its own previous-state input", i.e. per-step value `t` is
`step` applied to the previous per-step value (`init0`, the engine's
`PastValue` initial value, before the first step) and input element `t`,
left to right. -/
def seqStates {τ : Type} (f : τ → τ → τ) : τ → List τ → List τ
  | _, [] => []
  | s, x :: xs =>
    let y := f s x
    y :: seqStates f y xs

/-- `Sequence::Fold` (Main.cpp 226-235): capture the step model's parameter
block under key `"step"`, and wrap `Sequence::Last` around
`Sequence::Recurrence` of the step function.  `init0` is the engine's
`PastValue` initial state threaded through the denotation. -/
def Sequence.Fold {τ : Type} (init0 : τ) (step : BinaryModel τ) : FoldModel τ :=
  { captured := [("step", step.pb)]
    run := fun x => seqLast (seqStates step.run init0 x) }

/-- Symbolic tensor expressions for the unrolled sequence classifier: an
input atom, the fixed zero initial state (`Constant({hiddenDim}, 0.0f)`),
`Index(x, t)`, and one opaque application node for each of the three
sub-models `embed`, `step`, `linear` built by `CreateModelFunctionUnrolled`
(with embedding dim 50, hidden dim 25, 5 output classes in the training
driver — the dimensions configure parameter shapes only and do not affect
the call structure). -/
inductive UExpr where
  | inp : Nat → UExpr
  | zero : UExpr
  | index : UExpr → Nat → UExpr
  | embedA : UExpr → UExpr
  | stepA : UExpr → UExpr → UExpr
  | linearA : UExpr → UExpr
  deriving DecidableEq

/-- The state after `t` trips of the loop of `CreateModelFunctionUnrolled`'s
wrapped function (Main.cpp 374-382): `state = zero` initially, then
`state = step(state, embed(Index(x, t)))` for `t` increasing. -/
def unrolledState (x : UExpr) : Nat → UExpr
  | 0 => UExpr.zero
  | t + 1 => UExpr.stepA (unrolledState x t) (UExpr.embedA (UExpr.index x t))

/-- The wrapped function of `CreateModelFunctionUnrolled` (Main.cpp 358-385)
applied to a sequence tensor `x` whose last shape dimension (the sequence
length read at Main.cpp 373) is `len`: run the loop and apply `linear` to
the final state. -/
def createModelFunctionUnrolledApply (x : UExpr) (len : Nat) : UExpr :=
  UExpr.linearA (unrolledState x len)

/-- Number of `embed` sub-model invocations recorded in a symbolic
expression. -/
def countEmbed : UExpr → Nat
  | .inp _ => 0
  | .zero => 0
  | .index e _ => countEmbed e
  | .embedA e => countEmbed e + 1
  | .stepA s e => countEmbed s + countEmbed e
  | .linearA e => countEmbed e

/-- Number of `step` sub-model invocations recorded in a symbolic
expression. -/
def countStep : UExpr → Nat
  | .inp _ => 0
  | .zero => 0
  | .index e _ => countStep e
  | .embedA e => countStep e
  | .stepA s e => countStep s + countStep e + 1
  | .linearA e => countStep e

/-- Number of `linear` sub-model invocations recorded in a symbolic
expression. -/
def countLinear : UExpr → Nat
  | .inp _ => 0
  | .zero => 0
  | .index e _ => countLinear e
  | .embedA e => countLinear e
  | .stepA s e => countLinear s + countLinear e
  | .linearA e => countLinear e + 1

/-- `ReduceLogSum(z, Axis::AllStaticAxes())` (external collaborator): the
spec's log-sum-exp reduction, with the engine's scalar `exp` and `log`
abstract. -/
def reduceLogSumAll {K : Type} [Field K] {n : Nat} (expf logf : K → K)
    (z : Fin n → K) : K :=
  logf (∑ j, expf (z j))

/-- `softmax` (Main.cpp 435-440): `Z = ReduceLogSum(z)`, `P = Exp(z - Z)` —
the numerically stable softmax. -/
def softmax {K : Type} [Field K] {n : Nat} (expf logf : K → K)
    (z : Fin n → K) : Fin n → K :=
  fun i => expf (z i - reduceLogSumAll expf logf z)

/-- The attention scores `u1` of the closure returned by `AttentionModel`
(Main.cpp 456-463): splice the encoder states into a tensor, project encoder
states by `Wenc` and the decoder state by `Wdec`, apply `Tanh` to the sum and
dot with the scoring vector `v`.  Matrices are index functions; `Times` is
the matrix product written as a sum. -/
def attentionScores {K : Type} [Field K] {a h d : Nat} (tanhf : K → K)
    (Wenc : Fin a → Fin h → K) (Wdec : Fin a → Fin d → K) (v : Fin a → K)
    (hEncs : List (Fin h → K)) (hDec : Fin d → K) : Fin hEncs.length → K :=
  fun t =>
    ∑ i, v i * tanhf ((∑ jj, Wenc i jj * hEncs.get t jj) + (∑ jj, Wdec i jj * hDec jj))

/-- The attention weights `w = softmax(u1)` (Main.cpp 464). -/
def attentionWeights {K : Type} [Field K] {a h d : Nat} (expf logf tanhf : K → K)
    (Wenc : Fin a → Fin h → K) (Wdec : Fin a → Fin d → K) (v : Fin a → K)
    (hEncs : List (Fin h → K)) (hDec : Fin d → K) : Fin hEncs.length → K :=
  softmax expf logf (attentionScores tanhf Wenc Wdec v hEncs hDec)

/-- The attended context `hEncsAv = Times(hEncsTensor, w)` returned by the
`AttentionModel` closure (Main.cpp 465-466): the weighted sum of encoder
states. -/
def attentionApply {K : Type} [Field K] {a h d : Nat} (expf logf tanhf : K → K)
    (Wenc : Fin a → Fin h → K) (Wdec : Fin a → Fin d → K) (v : Fin a → K)
    (hEncs : List (Fin h → K)) (hDec : Fin d → K) : Fin h → K :=
  fun j => ∑ t, hEncs.get t j * attentionWeights expf logf tanhf Wenc Wdec v hEncs hDec t

/-- The per-stream loop of `FromCNTKMB` (Main.cpp 285-325) over streams
already unpacked into their per-sequence data (`UnpackVariableValue` is the
external collaborator).  `numSeq` starts at 0; a stream seen while
`numSeq == 0` installs its own sequence count, otherwise a differing count is
the fatal `LogicError("inconsistent MB size")`.  `conv i` models the
per-item conversion of stream `i` (optional sample-axis slicing and
`Constant` wrapping, Main.cpp 318-323). -/
def fromCNTKMBLoop {δ γ : Type} (conv : Nat → δ → γ) :
    List (List δ) → Nat → Nat → Except String (List (List γ))
  | [], _, _ => .ok []
  | sequences :: rest, i, numSeq =>
    if numSeq = 0 then
      match fromCNTKMBLoop conv rest (i + 1) sequences.length with
      | .error e => .error e
      | .ok args => .ok (sequences.map (conv i) :: args)
    else if numSeq ≠ sequences.length then .error "inconsistent MB size"
    else
      match fromCNTKMBLoop conv rest (i + 1) numSeq with
      | .error e => .error e
      | .ok args => .ok (sequences.map (conv i) :: args)

/-- `FromCNTKMB` (Main.cpp 279-327): run the per-stream loop from stream 0
with `numSeq = 0`. -/
def FromCNTKMB {δ γ : Type} (conv : Nat → δ → γ) (inputs : List (List δ)) :
    Except String (List (List γ)) :=
  fromCNTKMBLoop conv inputs 0 0

/-! Helper lemmas shared by the claim theorems. -/

/-- Element `t` of a list built as `map` over `range`. -/
theorem getD_range_map {α : Type} (g : Nat → α) (len t : Nat) (d : α) (ht : t < len) :
    ((List.range len).map g).getD t d = g t := by
  simp [List.getD_eq_getElem?_getD, List.getElem?_range, ht]

/-- The push-back loop of `Batch::map` builds the ordinary map. -/
theorem batch_map_foldl {τ γ : Type} (f : τ → γ) :
    ∀ (batch : List τ) (acc : List γ),
      batch.foldl (fun res x => res ++ [f x]) acc = acc ++ batch.map f := by
  intro batch
  induction batch with
  | nil => simp
  | cons x xs ih => intro acc; simp [List.foldl_cons, ih]

/-- `Batch.map` agrees with `List.map`. -/
theorem batch_map_eq_map {τ γ : Type} (f : τ → γ) (batch : List τ) :
    Batch.map f batch = batch.map f := by
  simpa using batch_map_foldl f batch []

/-- `Batch.sum` fails exactly on the empty batch. -/
theorem batch_sum_eq_none_iff {τ : Type} (E : Engine τ) (batch : List τ) :
    Batch.sum E batch = none ↔ batch = [] := by
  cases batch <;> simp [Batch.sum]

/-- The append-accumulating double loop of the nested `Batch::sum` flattens
the batch. -/
theorem batch_sum_foldl_flatten {τ : Type} :
    ∀ (batch : List (List τ)) (acc : List τ),
      batch.foldl (fun a b => a ++ b) acc = acc ++ batch.flatten := by
  intro batch
  induction batch with
  | nil => simp
  | cons x xs ih => intro acc; simp [List.foldl_cons, ih]

/-- **C4.** For every name absent from a `ParameterBlock`'s parameter map
(the empty string included), `operator[]` fails with the attributed
"no such parameter" error and never returns any parameter value. -/
theorem parameterBlock_lookup_absent_fails {τ : Type} (pb : ParameterBlock τ)
    (name : String) (habs : name ∉ pb.params.map Prod.fst) :
    pb.lookup name = Except.error ("no such parameter: " ++ name) ∧
    ∀ p : Param τ, pb.lookup name ≠ Except.ok p := by
  have hnone : pb.params.lookup name = none := by
    rw [List.lookup_eq_none_iff]
    intro p hp
    simp only [bne_iff_ne, ne_eq]
    intro hk
    exact habs (List.mem_map.mpr ⟨p, hp, hk.symm⟩)
  refine ⟨?_, ?_⟩
  · simp [ParameterBlock.lookup, hnone]
  · intro p
    simp [ParameterBlock.lookup, hnone]

/-- Witness for C4 at a concrete block and the empty-string name. -/
theorem parameterBlock_lookup_absent_fails_witness :
    (ParameterBlock.mk [("w", ⟨"w", 1⟩)] []).lookup ""
        = Except.error ("no such parameter: " ++ "") ∧
    ∀ p : Param Nat,
      (ParameterBlock.mk [("w", ⟨"w", 1⟩)] []).lookup "" ≠ Except.ok p :=
  parameterBlock_lookup_absent_fails (ParameterBlock.mk [("w", ⟨"w", (1 : Nat)⟩)] []) ""
    (by simp [ParameterBlock.params])

/-- **C3.** The binary and binary-sequence `Batch::Map` pairings on input
batches of unequal lengths fail fatally (the `assert` on equal sizes),
producing no truncated or partial result. -/
theorem batch_mapBinary_mismatch_fails {τ : Type} [Inhabited τ]
    (f : τ → τ → τ) (g : List τ → List τ → List τ)
    (xB yB : List τ) (xS yS : List (List τ))
    (hx : xB.length ≠ yB.length) (hs : xS.length ≠ yS.length) :
    Batch.MapBinary f xB yB = none ∧ Batch.MapBinarySeq g xS yS = none := by
  constructor
  · unfold Batch.MapBinary
    rw [if_neg (by omega)]
  · unfold Batch.MapBinarySeq
    rw [if_neg (by omega)]

/-- Witness for C3 at concrete mismatched batches. -/
theorem batch_mapBinary_mismatch_fails_witness :
    Batch.MapBinary (fun a _ => a) [1] ([] : List Nat) = none ∧
    Batch.MapBinarySeq (fun a _ => a) [[1]] ([] : List (List Nat)) = none :=
  batch_mapBinary_mismatch_fails (fun a _ => a) (fun a _ => a) [1] [] [[1]] []
    (by decide) (by decide)

/-- **C8.** On equal-length batches the binary `Batch::Map` pairing succeeds
with a result of the same length whose element `i` is `f(A[i], B[i])`, and
the unary `Batch::map` is exactly the order- and length-preserving
element-wise map. -/
theorem batch_map_elementwise {τ γ : Type} [Inhabited τ]
    (f2 : τ → τ → τ) (f1 : τ → γ) (A B : List τ)
    (hlen : A.length = B.length) :
    (∃ r, Batch.MapBinary f2 A B = some r ∧ r.length = A.length ∧
      ∀ i, i < A.length →
        r.getD i default = f2 (A.getD i default) (B.getD i default)) ∧
    Batch.map f1 A = A.map f1 := by
  refine ⟨?_, batch_map_eq_map f1 A⟩
  refine ⟨(List.range A.length).map fun i =>
    f2 (A.getD i default) (B.getD i default), ?_, ?_, ?_⟩
  · unfold Batch.MapBinary
    rw [if_pos hlen.symm]
  · simp
  · intro i hi
    exact getD_range_map _ _ _ _ hi

/-- Witness for C8 at concrete equal-length batches. -/
theorem batch_map_elementwise_witness :
    (∃ r, Batch.MapBinary (fun a b => a + 10 * b) [1, 2] [3, 4] = some r ∧
      r.length = [1, 2].length ∧
      ∀ i, i < [1, 2].length →
        r.getD i default
          = (fun a b => a + 10 * b) ([1, 2].getD i default) ([3, 4].getD i default)) ∧
    Batch.map (fun a => a * 2) [1, 2] = [1, 2].map fun a => a * 2 :=
  batch_map_elementwise (fun a b => a + 10 * b) (fun a => a * 2) [1, 2] [3, 4] rfl

/-- **C9.** `Batch::sum` reads `batch.front()` and is therefore only defined
on non-empty batches: it has no value on `[]`, a value on any `x :: rest`,
and the nested overload has a value exactly when the flattened list of all
sequence items is non-empty — in particular a non-empty batch consisting
solely of empty sequences is outside its domain. -/
theorem batch_sum_requires_nonempty {τ : Type} (E : Engine τ) :
    Batch.sum E ([] : List τ) = none ∧
    (∀ (x : τ) (batch : List τ), (Batch.sum E (x :: batch)).isSome) ∧
    (∀ bb : List (List τ), (Batch.sumNested E bb = none ↔ bb.flatten = [])) ∧
    (∀ bb : List (List τ), (∀ s ∈ bb, s = []) → Batch.sumNested E bb = none) := by
  have hnested : ∀ bb : List (List τ), (Batch.sumNested E bb = none ↔ bb.flatten = []) := by
    intro bb
    unfold Batch.sumNested
    rw [batch_sum_foldl_flatten bb []]
    simpa using batch_sum_eq_none_iff E bb.flatten
  refine ⟨rfl, ?_, hnested, ?_⟩
  · intro x batch
    simp [Batch.sum]
  · intro bb hall
    rw [hnested bb]
    simp only [List.flatten_eq_nil_iff]
    exact hall

/-- Witness for C9 at a concrete engine over natural-number tensors. -/
theorem batch_sum_requires_nonempty_witness :
    Batch.sum (⟨fun _ => [], fun _ _ => 0, fun _ _ => 0, fun _ _ => 0⟩ : Engine Nat)
        ([] : List Nat) = none ∧
    (Batch.sum (⟨fun _ => [], fun _ _ => 0, fun _ _ => 0, fun _ _ => 0⟩ : Engine Nat)
        [7]).isSome ∧
    Batch.sumNested (⟨fun _ => [], fun _ _ => 0, fun _ _ => 0, fun _ _ => 0⟩ : Engine Nat)
        [[], []] = none := by
  have h := batch_sum_requires_nonempty
    (⟨fun _ => [], fun _ _ => 0, fun _ _ => 0, fun _ _ => 0⟩ : Engine Nat)
  exact ⟨h.1, h.2.1 7 [], h.2.2.2 [[], []] (by simp)⟩

/-- **C10.** `Recurrence` applied to the empty sequence returns the empty
sequence, for every step function, initial state and direction flag — in
particular the result does not depend on the step function or the initial
state. -/
theorem recurrence_empty {α : Type} [Inhabited α] (step : α → α → α)
    (s0 : α) (gb : Bool) :
    Recurrence step s0 gb ([] : List α) = [] := rfl

/-- Witness for C10 at a concrete step function. -/
theorem recurrence_empty_witness :
    Recurrence (fun a b : Nat => a + b) 5 true [] = [] :=
  recurrence_empty (fun a b : Nat => a + b) 5 true

/-- **C6.** The unrolled model of `CreateModelFunctionUnrolled` applied to a
1-step sequence reduces to `linear(step(zero, embed(Index(x, 0))))`, with
exactly one invocation each of the `embed`, `step` and `linear` sub-models
added beyond those already inside the input expression. -/
theorem unrolled_one_step (x : UExpr) :
    createModelFunctionUnrolledApply x 1
      = UExpr.linearA (UExpr.stepA UExpr.zero (UExpr.embedA (UExpr.index x 0))) ∧
    countEmbed (createModelFunctionUnrolledApply x 1) = countEmbed x + 1 ∧
    countStep (createModelFunctionUnrolledApply x 1) = countStep x + 1 ∧
    countLinear (createModelFunctionUnrolledApply x 1) = countLinear x + 1 := by
  refine ⟨rfl, ?_, ?_, ?_⟩ <;>
    simp [createModelFunctionUnrolledApply, unrolledState,
      countEmbed, countStep, countLinear]

/-- Witness for C6 at a concrete input atom. -/
theorem unrolled_one_step_witness :
    createModelFunctionUnrolledApply (UExpr.inp 0) 1
      = UExpr.linearA (UExpr.stepA UExpr.zero
          (UExpr.embedA (UExpr.index (UExpr.inp 0) 0))) ∧
    countEmbed (createModelFunctionUnrolledApply (UExpr.inp 0) 1) = 1 ∧
    countStep (createModelFunctionUnrolledApply (UExpr.inp 0) 1) = 1 ∧
    countLinear (createModelFunctionUnrolledApply (UExpr.inp 0) 1) = 1 :=
  unrolled_one_step (UExpr.inp 0)

/-- Unfolding one forward trip of the `Recurrence` loop. -/
theorem recurrenceLoop_fwd_succ {α : Type} (step : α → α → α) (s0 : α)
    (seqAt : Nat → α) (len : Nat) (res0 : Nat → α) (n j : Nat) :
    recurrenceLoop step s0 false seqAt len res0 (n + 1) j
      = if j = n then
          step (if n = 0 then s0
            else recurrenceLoop step s0 false seqAt len res0 n (n - 1)) (seqAt n)
        else recurrenceLoop step s0 false seqAt len res0 n j := by
  simp [recurrenceLoop, recurrenceBody]

/-- Forward trips beyond `t` leave slot `t` unchanged. -/
theorem recurrenceLoop_fwd_stable {α : Type} (step : α → α → α) (s0 : α)
    (seqAt : Nat → α) (len : Nat) (res0 : Nat → α) :
    ∀ n t, t < n →
      recurrenceLoop step s0 false seqAt len res0 n t
        = recurrenceLoop step s0 false seqAt len res0 (t + 1) t := by
  intro n
  induction n with
  | zero => omega
  | succ n ih =>
    intro t ht
    by_cases h : t = n
    · subst h; rfl
    · rw [recurrenceLoop_fwd_succ, if_neg h]
      exact ih t (by omega)

/-- Unfolding one backward trip of the `Recurrence` loop. -/
theorem recurrenceLoop_bwd_succ {α : Type} (step : α → α → α) (s0 : α)
    (seqAt : Nat → α) (len : Nat) (res0 : Nat → α) (n j : Nat) :
    recurrenceLoop step s0 true seqAt len res0 (n + 1) j
      = if j = len - 1 - n then
          step (if n = 0 then s0
            else recurrenceLoop step s0 true seqAt len res0 n (len - 1 - (n - 1)))
            (seqAt (len - 1 - n))
        else recurrenceLoop step s0 true seqAt len res0 n j := by
  simp [recurrenceLoop, recurrenceBody]

/-- Backward trips beyond the one writing slot `j` (trip `len - 1 - j`)
leave slot `j` unchanged. -/
theorem recurrenceLoop_bwd_stable {α : Type} (step : α → α → α) (s0 : α)
    (seqAt : Nat → α) (len : Nat) (res0 : Nat → α) :
    ∀ n j, j < len → len - 1 - j < n → n ≤ len →
      recurrenceLoop step s0 true seqAt len res0 n j
        = recurrenceLoop step s0 true seqAt len res0 (len - 1 - j + 1) j := by
  intro n
  induction n with
  | zero => omega
  | succ n ih =>
    intro j hj hlt hle
    by_cases h : len - 1 - j = n
    · rw [h]
    · rw [recurrenceLoop_bwd_succ, if_neg (by omega)]
      exact ih j hj (by omega) (by omega)

/-- The forward defining equation of `Recurrence`: slot `t` holds `step`
of the previous slot (the initial state at `t = 0`) and input element `t`. -/
theorem recurrence_fwd_getD {α : Type} [Inhabited α] (step : α → α → α)
    (s0 : α) (seq : List α) (t : Nat) (ht : t < seq.length) :
    (Recurrence step s0 false seq).getD t default
      = step (if t = 0 then s0 else (Recurrence step s0 false seq).getD (t - 1) default)
          (seq.getD t default) := by
  have hfin : ∀ u, u < seq.length →
      (Recurrence step s0 false seq).getD u default
        = recurrenceLoop step s0 false (fun i => seq.getD i default)
            seq.length (fun _ => default) seq.length u := by
    intro u hu
    unfold Recurrence
    exact getD_range_map _ _ _ _ hu
  rw [hfin t ht]
  rw [recurrenceLoop_fwd_stable step s0 (fun i => seq.getD i default)
    seq.length (fun _ => default) seq.length t ht]
  rw [recurrenceLoop_fwd_succ, if_pos rfl]
  by_cases h0 : t = 0
  · rw [if_pos h0, if_pos h0, h0]
  · rw [if_neg h0, if_neg h0, hfin (t - 1) (by omega)]
    rw [recurrenceLoop_fwd_stable step s0 (fun i => seq.getD i default)
      seq.length (fun _ => default) seq.length (t - 1) (by omega)]
    rw [show t - 1 + 1 = t by omega]

/-- The backward defining equation of `Recurrence`: slot `len - 1 - t` holds
`step` of slot `len - t` (the initial state at `t = 0`) and input element
`len - 1 - t`. -/
theorem recurrence_bwd_getD {α : Type} [Inhabited α] (step : α → α → α)
    (s0 : α) (seq : List α) (t : Nat) (ht : t < seq.length) :
    (Recurrence step s0 true seq).getD (seq.length - 1 - t) default
      = step (if t = 0 then s0
            else (Recurrence step s0 true seq).getD (seq.length - t) default)
          (seq.getD (seq.length - 1 - t) default) := by
  have hfin : ∀ u, u < seq.length →
      (Recurrence step s0 true seq).getD u default
        = recurrenceLoop step s0 true (fun i => seq.getD i default)
            seq.length (fun _ => default) seq.length u := by
    intro u hu
    unfold Recurrence
    exact getD_range_map _ _ _ _ hu
  have hlen1 : 0 < seq.length := by omega
  rw [hfin (seq.length - 1 - t) (by omega)]
  rw [recurrenceLoop_bwd_stable step s0 (fun i => seq.getD i default)
    seq.length (fun _ => default) seq.length (seq.length - 1 - t)
    (by omega) (by omega) (by omega)]
  rw [show seq.length - 1 - (seq.length - 1 - t) = t by omega]
  rw [recurrenceLoop_bwd_succ, if_pos (by omega)]
  by_cases h0 : t = 0
  · rw [if_pos h0, if_pos h0, h0]
  · rw [if_neg h0, if_neg h0]
    rw [show seq.length - 1 - (t - 1) = seq.length - t by omega]
    rw [hfin (seq.length - t) (by omega)]
    rw [recurrenceLoop_bwd_stable step s0 (fun i => seq.getD i default)
      seq.length (fun _ => default) seq.length (seq.length - t)
      (by omega) (by omega) (by omega)]
    rw [show seq.length - 1 - (seq.length - t) + 1 = t by omega]

/-- Both directions of `Recurrence` return a sequence of the input's
length. -/
theorem recurrence_length {α : Type} [Inhabited α] (step : α → α → α)
    (s0 : α) (gb : Bool) (seq : List α) :
    (Recurrence step s0 gb seq).length = seq.length := by
  unfold Recurrence
  simp

/-- `getD` below the length is `get`. -/
theorem getD_of_lt {α : Type} (l : List α) (i : Nat) (d : α) (h : i < l.length) :
    l.getD i d = l.get ⟨i, h⟩ := by
  simp [List.getD_eq_getElem?_getD, List.getElem?_eq_getElem h]

/-- **C1.** For every step model, initial state and input sequence of length
`N`, the forward `Recurrence` result has length `N` with element `0` equal
to `step(s0, seq[0])` and element `t` equal to `step(result[t-1], seq[t])`,
and the backward result has length `N` with element `N-1` equal to
`step(s0, seq[N-1])` and element `N-1-t` equal to
`step(result[N-t], seq[N-1-t])`. -/
theorem recurrence_spec {α : Type} [Inhabited α] (step : α → α → α)
    (s0 : α) (seq : List α) :
    (Recurrence step s0 false seq).length = seq.length ∧
    (Recurrence step s0 true seq).length = seq.length ∧
    (0 < seq.length →
      (Recurrence step s0 false seq).getD 0 default
        = step s0 (seq.getD 0 default)) ∧
    (∀ t, 1 ≤ t → t < seq.length →
      (Recurrence step s0 false seq).getD t default
        = step ((Recurrence step s0 false seq).getD (t - 1) default)
            (seq.getD t default)) ∧
    (0 < seq.length →
      (Recurrence step s0 true seq).getD (seq.length - 1) default
        = step s0 (seq.getD (seq.length - 1) default)) ∧
    (∀ t, 1 ≤ t → t < seq.length →
      (Recurrence step s0 true seq).getD (seq.length - 1 - t) default
        = step ((Recurrence step s0 true seq).getD (seq.length - t) default)
            (seq.getD (seq.length - 1 - t) default)) := by
  refine ⟨recurrence_length step s0 false seq, recurrence_length step s0 true seq,
    ?_, ?_, ?_, ?_⟩
  · intro h
    have hf := recurrence_fwd_getD step s0 seq 0 h
    rwa [if_pos rfl] at hf
  · intro t h1 ht
    have hf := recurrence_fwd_getD step s0 seq t ht
    rwa [if_neg (by omega)] at hf
  · intro h
    have hb := recurrence_bwd_getD step s0 seq 0 h
    rwa [if_pos rfl] at hb
  · intro t h1 ht
    have hb := recurrence_bwd_getD step s0 seq t ht
    rwa [if_neg (by omega)] at hb

/-- Witness for C1 at a concrete step function, initial state, and 3-element
sequence (`t = 1` instance of the quantified equations). -/
theorem recurrence_spec_witness :
    (Recurrence (fun a b : Nat => 2 * a + b) 1 false [3, 4, 5]).length
      = [3, 4, 5].length ∧
    (Recurrence (fun a b : Nat => 2 * a + b) 1 true [3, 4, 5]).length
      = [3, 4, 5].length ∧
    (Recurrence (fun a b : Nat => 2 * a + b) 1 false [3, 4, 5]).getD 0 default
      = 2 * 1 + [3, 4, 5].getD 0 default ∧
    (Recurrence (fun a b : Nat => 2 * a + b) 1 false [3, 4, 5]).getD 1 default
      = 2 * ((Recurrence (fun a b : Nat => 2 * a + b) 1 false [3, 4, 5]).getD
          (1 - 1) default) + [3, 4, 5].getD 1 default ∧
    (Recurrence (fun a b : Nat => 2 * a + b) 1 true [3, 4, 5]).getD
        ([3, 4, 5].length - 1) default
      = 2 * 1 + [3, 4, 5].getD ([3, 4, 5].length - 1) default ∧
    (Recurrence (fun a b : Nat => 2 * a + b) 1 true [3, 4, 5]).getD
        ([3, 4, 5].length - 1 - 1) default
      = 2 * ((Recurrence (fun a b : Nat => 2 * a + b) 1 true [3, 4, 5]).getD
          ([3, 4, 5].length - 1) default)
          + [3, 4, 5].getD ([3, 4, 5].length - 1 - 1) default := by
  have h := recurrence_spec (fun a b : Nat => 2 * a + b) 1 [3, 4, 5]
  exact ⟨h.1, h.2.1, h.2.2.1 (by decide), h.2.2.2.1 1 (by decide) (by decide),
    h.2.2.2.2.1 (by decide), h.2.2.2.2.2 1 (by decide) (by decide)⟩

/-- `seqStates` preserves length. -/
theorem seqStates_length {τ : Type} (f : τ → τ → τ) :
    ∀ (xs : List τ) (s : τ), (seqStates f s xs).length = xs.length := by
  intro xs
  induction xs with
  | nil => intro s; rfl
  | cons x xs ih => intro s; simp [seqStates, ih]

/-- First element of `seqStates`. -/
theorem seqStates_getD_zero {τ : Type} [Inhabited τ] (f : τ → τ → τ)
    (s : τ) (xs : List τ) (h : xs ≠ []) :
    (seqStates f s xs).getD 0 default = f s (xs.getD 0 default) := by
  cases xs with
  | nil => exact absurd rfl h
  | cons x xs => rfl

/-- `seqStates` satisfies the forward defining recurrence. -/
theorem seqStates_getD_succ {τ : Type} [Inhabited τ] (f : τ → τ → τ) :
    ∀ (xs : List τ) (s : τ) (t : Nat), t + 1 < xs.length →
      (seqStates f s xs).getD (t + 1) default
        = f ((seqStates f s xs).getD t default) (xs.getD (t + 1) default) := by
  intro xs
  induction xs with
  | nil => intro s t ht; simp at ht
  | cons x xs ih =>
    intro s t ht
    cases t with
    | zero =>
      have hne : xs ≠ [] := by
        intro hnil
        rw [hnil] at ht
        simp at ht
      exact seqStates_getD_zero f (f s x) xs hne
    | succ t =>
      exact ih (f s x) t (by simpa using ht)

/-- The indexed `Recurrence` loop run forwards computes exactly the
left-to-right state scan `seqStates`. -/
theorem recurrence_eq_seqStates {τ : Type} [Inhabited τ] (f : τ → τ → τ)
    (s : τ) (xs : List τ) :
    Recurrence f s false xs = seqStates f s xs := by
  have key : ∀ i, i < xs.length →
      (Recurrence f s false xs).getD i default
        = (seqStates f s xs).getD i default := by
    intro i
    induction i using Nat.strongRecOn with
    | _ i ih =>
      intro hi
      cases i with
      | zero =>
        have hne : xs ≠ [] := by
          intro hnil
          rw [hnil] at hi
          simp at hi
        have hf := recurrence_fwd_getD f s xs 0 hi
        rw [if_pos rfl] at hf
        rw [hf, seqStates_getD_zero f s xs hne]
      | succ t =>
        have hf := recurrence_fwd_getD f s xs (t + 1) hi
        rw [if_neg (by omega)] at hf
        rw [hf, seqStates_getD_succ f xs s t hi]
        simp only [Nat.add_sub_cancel]
        rw [ih t (by omega) (by omega)]
  apply List.ext_getElem
  · rw [recurrence_length, seqStates_length]
  · intro i h1 h2
    have hk := key i (by rwa [recurrence_length] at h1)
    rwa [getD_of_lt _ _ _ h1, getD_of_lt _ _ _ h2,
      List.get_eq_getElem, List.get_eq_getElem] at hk

/-- **C2.** The model produced by `Sequence::Fold` returns exactly the last
element of the sequence produced by `Recurrence` with the same step model,
initial state and input (the final recurrence state), and its nested
capture map binds the step model's parameter block under the key `"step"`. -/
theorem fold_is_last_of_recurrence {τ : Type} [Inhabited τ]
    (step : BinaryModel τ) (init0 : τ) (x : List τ) :
    (Sequence.Fold init0 step).run x
      = (Recurrence step.run init0 false x).getLast? ∧
    (Sequence.Fold init0 step).captured.lookup "step" = some step.pb := by
  constructor
  · show seqLast (seqStates step.run init0 x)
      = (Recurrence step.run init0 false x).getLast?
    rw [recurrence_eq_seqStates]
    rfl
  · rfl

/-- Witness for C2 at a concrete step model and input sequence. -/
theorem fold_is_last_of_recurrence_witness :
    (Sequence.Fold 0 ⟨ParameterBlock.mk [] [], fun a b : Nat => a + b⟩).run [1, 2]
      = (Recurrence (BinaryModel.run ⟨ParameterBlock.mk [] [], fun a b : Nat => a + b⟩)
          0 false [1, 2]).getLast? ∧
    (Sequence.Fold 0 ⟨ParameterBlock.mk [] [], fun a b : Nat => a + b⟩).captured.lookup "step"
      = some (ParameterBlock.mk [] []) :=
  fold_is_last_of_recurrence ⟨ParameterBlock.mk [] [], fun a b : Nat => a + b⟩ 0 [1, 2]

/-- `softmax` of a single score is 1, given the engine's `exp`/`log`
contract (`log (exp x) = x` and `exp 0 = 1`). -/
theorem softmax_single {K : Type} [Field K] (expf logf : K → K)
    (hlog : ∀ x : K, logf (expf x) = x) (hexp0 : expf 0 = 1)
    (z : Fin 1 → K) (t : Fin 1) : softmax expf logf z t = 1 := by
  unfold softmax reduceLogSumAll
  rw [Fin.sum_univ_one, hlog, Fin.eq_zero t, sub_self, hexp0]

/-- **C7.** For every attention model and encoder sequence of length 1, the
softmax-normalized attention weight of the single position is 1 and the
attended context equals that encoder state exactly, for any decoder state. -/
theorem attention_singleton {K : Type} [Field K] (expf logf tanhf : K → K)
    (hlog : ∀ x : K, logf (expf x) = x) (hexp0 : expf 0 = 1)
    {a h d : Nat} (Wenc : Fin a → Fin h → K) (Wdec : Fin a → Fin d → K)
    (v : Fin a → K) (e : Fin h → K) (hDec : Fin d → K) :
    (∀ t, attentionWeights expf logf tanhf Wenc Wdec v [e] hDec t = 1) ∧
    (∀ j, attentionApply expf logf tanhf Wenc Wdec v [e] hDec j = e j) := by
  have hw : ∀ t, attentionWeights expf logf tanhf Wenc Wdec v [e] hDec t = 1 := by
    intro t
    exact softmax_single expf logf hlog hexp0
      (attentionScores tanhf Wenc Wdec v [e] hDec) t
  refine ⟨hw, ?_⟩
  intro j
  have happ : attentionApply expf logf tanhf Wenc Wdec v [e] hDec j
      = [e].get (0 : Fin 1) j
          * attentionWeights expf logf tanhf Wenc Wdec v [e] hDec (0 : Fin 1) :=
    Fin.sum_univ_one fun t : Fin 1 =>
      [e].get t j * attentionWeights expf logf tanhf Wenc Wdec v [e] hDec t
  rw [happ, hw (0 : Fin 1), mul_one]
  rfl

/-- Witness for C7 over the rationals with `exp x = x + 1`, `log x = x - 1`
(which satisfy the required contract) at concrete 1-dimensional data. -/
theorem attention_singleton_witness :
    attentionWeights (fun x : ℚ => x + 1) (fun x : ℚ => x - 1) (fun x : ℚ => x)
        (fun _ _ : Fin 1 => (0 : ℚ)) (fun _ _ : Fin 1 => (0 : ℚ))
        (fun _ : Fin 1 => (0 : ℚ)) [fun _ : Fin 1 => (3 : ℚ)]
        (fun _ : Fin 1 => (0 : ℚ)) ⟨0, Nat.one_pos⟩ = 1 ∧
    attentionApply (fun x : ℚ => x + 1) (fun x : ℚ => x - 1) (fun x : ℚ => x)
        (fun _ _ : Fin 1 => (0 : ℚ)) (fun _ _ : Fin 1 => (0 : ℚ))
        (fun _ : Fin 1 => (0 : ℚ)) [fun _ : Fin 1 => (3 : ℚ)]
        (fun _ : Fin 1 => (0 : ℚ)) ⟨0, Nat.one_pos⟩ = 3 := by
  have hmain := attention_singleton (fun x : ℚ => x + 1) (fun x : ℚ => x - 1)
    (fun x : ℚ => x) (by intro x; ring) (by norm_num)
    (fun _ _ : Fin 1 => (0 : ℚ)) (fun _ _ : Fin 1 => (0 : ℚ))
    (fun _ : Fin 1 => (0 : ℚ)) (fun _ : Fin 1 => (3 : ℚ)) (fun _ : Fin 1 => (0 : ℚ))
  exact ⟨hmain.1 ⟨0, Nat.one_pos⟩, hmain.2 ⟨0, Nat.one_pos⟩⟩

/-- Once a nonzero `numSeq` is installed, any later stream with a different
sequence count makes the `FromCNTKMB` loop fail with the fatal
"inconsistent MB size" error. -/
theorem fromCNTKMBLoop_error {δ γ : Type} (conv : Nat → δ → γ) :
    ∀ (rest : List (List δ)) (i numSeq : Nat), numSeq ≠ 0 →
      (∃ s ∈ rest, s.length ≠ numSeq) →
      fromCNTKMBLoop conv rest i numSeq = .error "inconsistent MB size" := by
  intro rest
  induction rest with
  | nil =>
    intro i numSeq _ hex
    obtain ⟨s, hs, _⟩ := hex
    exact absurd hs (List.not_mem_nil s)
  | cons sequences rest ih =>
    intro i numSeq hns hex
    unfold fromCNTKMBLoop
    rw [if_neg hns]
    by_cases hlen : numSeq ≠ sequences.length
    · rw [if_pos hlen]
    · rw [if_neg hlen]
      push_neg at hlen
      obtain ⟨s, hs, hsl⟩ := hex
      rcases List.mem_cons.mp hs with hhead | htail
      · rw [hhead] at hsl
        exact absurd hlen.symm hsl
      · rw [ih (i + 1) numSeq hns ⟨s, htail, hsl⟩]

/-- Once a nonzero `numSeq` is installed and every remaining stream has that
sequence count, the `FromCNTKMB` loop succeeds with the per-stream converted
sequences. -/
theorem fromCNTKMBLoop_ok {δ γ : Type} (conv : Nat → δ → γ) :
    ∀ (rest : List (List δ)) (i numSeq : Nat), numSeq ≠ 0 →
      (∀ s ∈ rest, s.length = numSeq) →
      fromCNTKMBLoop conv rest i numSeq
        = .ok (rest.mapIdx fun k s => s.map (conv (i + k))) := by
  intro rest
  induction rest with
  | nil => intro i numSeq _ _; rfl
  | cons sequences rest ih =>
    intro i numSeq hns hall
    unfold fromCNTKMBLoop
    rw [if_neg hns]
    have h1 : sequences.length = numSeq := hall sequences (by simp)
    rw [if_neg (by omega)]
    rw [ih (i + 1) numSeq hns fun s hs => hall s (by simp [hs])]
    simp only [List.mapIdx_cons, Nat.add_zero]
    have hfun : (fun k (s : List δ) => s.map (conv (i + 1 + k)))
        = fun k s => s.map (conv (i + (k + 1))) := by
      funext k s
      rw [show i + 1 + k = i + (k + 1) by omega]
    rw [hfun]

/-- **C5 (amended).** When every input stream unpacks to at least one
sequence, `FromCNTKMB` fails with the fatal "inconsistent MB size" error
exactly when two streams unpack to different sequence counts.  (Streams
unpacking to zero sequences defeat the check: `numSeq == 0` doubles as the
"not yet set" sentinel, so a zero-count stream never installs a reference
count — see the counterexample.) -/
theorem fromCNTKMB_error_iff {δ γ : Type} (conv : Nat → δ → γ)
    (inputs : List (List δ)) (hne : ∀ s ∈ inputs, s ≠ []) :
    FromCNTKMB conv inputs = Except.error "inconsistent MB size" ↔
      ∃ s ∈ inputs, ∃ t ∈ inputs, s.length ≠ t.length := by
  cases inputs with
  | nil => simp [FromCNTKMB, fromCNTKMBLoop]
  | cons s1 rest =>
    have hs1 : s1.length ≠ 0 := by
      have hx := hne s1 (by simp)
      simpa [List.length_eq_zero] using hx
    constructor
    · intro herr
      by_contra hno
      push_neg at hno
      have hall : ∀ s ∈ rest, s.length = s1.length := fun s hs =>
        hno s (by simp [hs]) s1 (by simp)
      unfold FromCNTKMB fromCNTKMBLoop at herr
      rw [if_pos rfl] at herr
      rw [fromCNTKMBLoop_ok conv rest (0 + 1) s1.length hs1 hall] at herr
      exact absurd herr (by simp)
    · rintro ⟨s, hs, t, ht, hst⟩
      have hexr : ∃ u ∈ rest, u.length ≠ s1.length := by
        by_contra hno2
        push_neg at hno2
        have hlen : ∀ u ∈ s1 :: rest, u.length = s1.length := by
          intro u hu
          rcases List.mem_cons.mp hu with rfl | hur
          · rfl
          · exact hno2 u hur
        exact hst (by rw [hlen s hs, hlen t ht])
      unfold FromCNTKMB fromCNTKMBLoop
      rw [if_pos rfl]
      rw [fromCNTKMBLoop_error conv rest (0 + 1) s1.length hs1 hexr]

/-- Counterexample to C5 as stated: with a first stream unpacking to zero
sequences and a second unpacking to one, the sequence counts differ yet
`FromCNTKMB` succeeds — the `numSeq == 0` sentinel treats the zero count as
"not yet set". -/
theorem fromCNTKMB_zero_sentinel_counterexample :
    FromCNTKMB (fun _ (x : Nat) => x) [[], [5]] = Except.ok [[], [5]] ∧
    ([] : List Nat).length ≠ [5].length :=
  ⟨rfl, by decide⟩

/-- Witness for the amended C5 at concrete nonempty streams of counts 1
and 2. -/
theorem fromCNTKMB_error_iff_witness :
    FromCNTKMB (fun _ (x : Nat) => x) [[1], [2, 3]]
      = Except.error "inconsistent MB size" :=
  (fromCNTKMB_error_iff (fun _ (x : Nat) => x) [[1], [2, 3]] (by decide)).mpr
    ⟨[1], by decide, [2, 3], by decide, by decide⟩
